import Mathlib

/-!
Shallow embedding of the HTDP web-service engine driver (`app/htdp_runner.py`
and `app/main.py`).

Python strings are modelled as Lean `String` / `List Char`; Python `float`
values are modelled as `ℚ` (every numeric operation the driver performs on
them — negation, comparison, fixed-point rendering — is exact on the values
exercised here); Python `dict` is modelled as an insertion-ordered
association list with the same update semantics (assignment updates in
place, `setdefault` only inserts when the key is absent); fallible
operations return `Option` / `Except`.
-/

set_option maxRecDepth 16384

set_option allowUnsafeReducibility true

attribute [semireducible] Rat.add Rat.mul Rat.inv Rat.sub Rat.ofScientific

namespace Htdp

/-! ### Character and token helpers (Python `str` primitives) -/

/-- Value of an ASCII digit character. -/
def digitVal (c : Char) : Nat := c.toNat - '0'.toNat

/-- Strip whitespace from both ends of a character list: Python `str.strip()`. -/
def stripChars (cs : List Char) : List Char :=
  ((cs.dropWhile Char.isWhitespace).reverse.dropWhile Char.isWhitespace).reverse

/-- Does `cs` begin with the pattern `pat`?  Python `str.startswith`. -/
def leadsWith : List Char → List Char → Bool
  | _, [] => true
  | [], _ :: _ => false
  | c :: cs, p :: ps => c == p && leadsWith cs ps

/-- Helper for `splitWs`: accumulates the current token (reversed). -/
def splitWsAux : List Char → List Char → List (List Char)
  | [], acc => if acc.isEmpty then [] else [acc.reverse]
  | c :: cs, acc =>
      if c.isWhitespace then
        if acc.isEmpty then splitWsAux cs [] else acc.reverse :: splitWsAux cs []
      else splitWsAux cs (c :: acc)

/-- Split on whitespace runs, dropping empty pieces: Python `str.split()`. -/
def splitWs (cs : List Char) : List (List Char) := splitWsAux cs []

/-- Join tokens with single spaces: Python `" ".join(...)`. -/
def joinSpace : List (List Char) → List Char
  | [] => []
  | [t] => t
  | t :: ts => t ++ ' ' :: joinSpace ts

/-- Split a list at the longest leading run of ASCII digits. -/
def splitDigits : List Char → List Char × List Char
  | [] => ([], [])
  | c :: cs =>
      if c.isDigit then
        let p := splitDigits cs
        (c :: p.1, p.2)
      else ([], c :: cs)

/-- Numeric value of a big-endian ASCII digit string. -/
def parseNatOfDigits (cs : List Char) : Nat :=
  Nat.ofDigits 10 ((cs.map digitVal).reverse)

/-! ### Decimal parsing and rendering (Python `float(str)` and `format`)

`parseUFloatChars` models the unsigned core of Python `float(token)` on the
token shapes the engine protocol produces: a run of digits with an optional
decimal point (exponent forms, `inf`/`nan` and digit underscores do not occur
in the fixed-format files exchanged with the engine and are not modelled). -/

def parseUFloatChars (cs : List Char) : Option ℚ :=
  match (splitDigits cs).2 with
  | [] =>
      if (splitDigits cs).1.isEmpty then none
      else some (parseNatOfDigits (splitDigits cs).1 : ℚ)
  | c :: rest2 =>
      if c = '.' then
        if (splitDigits rest2).2.isEmpty &&
            (!(splitDigits cs).1.isEmpty || !(splitDigits rest2).1.isEmpty) then
          some ((parseNatOfDigits (splitDigits cs).1 : ℚ) +
            (parseNatOfDigits (splitDigits rest2).1 : ℚ) /
              10 ^ (splitDigits rest2).1.length)
        else none
      else none

/-- Python `float(token)` on a whitespace-free token: optional sign, then an
unsigned decimal number. `none` models `ValueError`. -/
def parseFloatChars : List Char → Option ℚ
  | '-' :: rest => (parseUFloatChars rest).map (fun q => -q)
  | '+' :: rest => parseUFloatChars rest
  | cs => parseUFloatChars cs

/-- Little-endian base-10 digits of `m`, fuel-bounded so that the kernel can
evaluate it (it agrees with `Nat.digits 10` — see `digitsRev_eq_digits`). -/
def digitsRevAux : Nat → Nat → List Nat
  | 0, _ => []
  | fuel + 1, m => if m = 0 then [] else m % 10 :: digitsRevAux fuel (m / 10)

/-- Little-endian base-10 digits of `m`. -/
def digitsRev (m : Nat) : List Nat := digitsRevAux m m

/-- Big-endian digit characters of `m`, with `"0"` for zero. -/
def natDigitsChars (m : Nat) : List Char :=
  if m = 0 then ['0'] else ((digitsRev m).map Nat.digitChar).reverse

/-- Exactly `d` digit characters for a fraction numerator `frac < 10 ^ d`,
zero-padded on the left. -/
def fracChars (frac d : Nat) : List Char :=
  ((digitsRev frac ++ List.replicate (d - (digitsRev frac).length) 0).map
    Nat.digitChar).reverse

/-- Round to the nearest integer, ties to even — the rounding Python uses when
formatting a float with a fixed number of decimals. -/
def roundHalfEven (q : ℚ) : ℤ :=
  let f := q.floor
  let r := q - f
  if r < 1 / 2 then f
  else if 1 / 2 < r then f + 1
  else if f % 2 = 0 then f else f + 1

/-- Character form of Python `f"{q:.df}"`: fixed-point with `d` decimals. -/
def formatFixedChars (q : ℚ) (d : Nat) : List Char :=
  if roundHalfEven (q * 10 ^ d) < 0 then
    '-' :: (natDigitsChars ((roundHalfEven (q * 10 ^ d)).natAbs / 10 ^ d) ++
      '.' :: fracChars ((roundHalfEven (q * 10 ^ d)).natAbs % 10 ^ d) d)
  else
    natDigitsChars ((roundHalfEven (q * 10 ^ d)).natAbs / 10 ^ d) ++
      '.' :: fracChars ((roundHalfEven (q * 10 ^ d)).natAbs % 10 ^ d) d

/-- Python `f"{q:.df}"` as a string. -/
def formatFixed (q : ℚ) (d : Nat) : String := String.mk (formatFixedChars q d)

/-- Fractional decimal digits of `r ∈ [0, 1)`, stopping when the remainder is
zero (fuel-bounded like the 17 significant digits of a double). -/
def fracDigitsFuel : Nat → ℚ → List Nat
  | 0, _ => []
  | fuel + 1, r =>
      if r = 0 then []
      else
        let r10 := r * 10
        r10.floor.toNat :: fracDigitsFuel fuel (r10 - r10.floor)

/-- Python `f"{x}"` (= `repr`) for a float whose value is a short terminating
decimal, which is the only kind the driver ever formats this way: integral
epochs render as `"2005.0"`. -/
def pyFloatRepr (q : ℚ) : String :=
  let a := if q < 0 then -q else q
  let ip := a.floor.toNat
  let ds := fracDigitsFuel 17 (a - a.floor)
  let frac := if ds.isEmpty then ['0'] else ds.map Nat.digitChar
  let body := natDigitsChars ip ++ '.' :: frac
  String.mk (if q < 0 then '-' :: body else body)

/-! ### Python `dict` as an insertion-ordered association list -/

/-- Insertion-ordered association list standing in for a Python `dict`. -/
abbrev Dict (α β : Type) := List (α × β)

/-- Python `d[k] = v`: update in place when the key exists, append otherwise. -/
def dictInsert {α β : Type} [DecidableEq α] : Dict α β → α → β → Dict α β
  | [], k, v => [(k, v)]
  | (k', v') :: rest, k, v =>
      if k = k' then (k', v) :: rest else (k', v') :: dictInsert rest k v

/-- Python `d.get(k)` / `k in d`. -/
def dictGet {α β : Type} [DecidableEq α] : Dict α β → α → Option β
  | [], _ => none
  | (k', v) :: rest, k => if k = k' then some v else dictGet rest k

/-- Python `d.setdefault(k, v)`: insert only when the key is absent. -/
def dictSetdefault {α β : Type} [DecidableEq α] (m : Dict α β) (k : α) (v : β) :
    Dict α β :=
  if (dictGet m k).isSome then m else m ++ [(k, v)]

/-! ### Frame catalog and alias index (`FRAME_MENU`, `_frame_aliases`) -/

/-- Menu indices and labels from MENU1 of htdp.f, in the order of the Python
dict literal. -/
def FRAME_MENU : List (Nat × String) :=
  [(1, "NAD_83(2011/CORS96/2007)"),
   (2, "NAD_83(PA11/PACP00)"),
   (3, "NAD_83(MA11/MARP00)"),
   (4, "WGS72"),
   (5, "WGS84 original (Transit)"),
   (6, "WGS84(G730)"),
   (7, "WGS84(G873)"),
   (8, "WGS84(G1150)"),
   (9, "WGS84(G1674)"),
   (10, "WGS84(G1762)"),
   (11, "WGS84(G2139)"),
   (12, "WGS84(G2296)"),
   (13, "ITRF88"),
   (14, "ITRF89"),
   (15, "ITRF90"),
   (16, "ITRF91"),
   (17, "ITRF92"),
   (18, "ITRF93"),
   (19, "ITRF94"),
   (20, "ITRF96"),
   (21, "ITRF97"),
   (22, "ITRF2000 or IGS00/IGb00"),
   (23, "ITRF2005 or IGS05"),
   (24, "ITRF2008 or IGS08/IGb08"),
   (25, "ITRF2014 or IGS14/IGb14"),
   (26, "ITRF2020 or IGS20/IGb20")]

/-- `_normalise_label`: lower-case, then keep only `[a-z0-9]`. -/
def _normalise_label (s : String) : String :=
  String.mk ((s.data.map Char.toLower).filter fun c => c.isLower || c.isDigit)

/-- First whitespace-delimited word: Python `label.split()[0]` for the
non-empty, non-leading-whitespace labels of the catalog. -/
def firstWord (s : String) : String :=
  String.mk (s.data.takeWhile fun c => !c.isWhitespace)

/-- Substring before the first parenthesis: Python `label.split("(")[0]`. -/
def beforeParen (s : String) : String :=
  String.mk (s.data.takeWhile fun c => c != '(')

/-- One iteration of the alias-building loop: the full label is registered
with plain dict assignment, the leading word and the pre-parenthetical form
with `setdefault`. -/
def registerEntry (m : Dict String Nat) (e : Nat × String) : Dict String Nat :=
  let m1 := dictInsert m (_normalise_label e.2) e.1
  let m2 := dictSetdefault m1 (_normalise_label (firstWord e.2)) e.1
  if e.2.data.any (· == '(') then
    dictSetdefault m2 (_normalise_label (beforeParen e.2)) e.1
  else m2

/-- The alias index built once at import time from `FRAME_MENU`. -/
def _frame_aliases : Dict String Nat := FRAME_MENU.foldl registerEntry []

/-- Modelled from the spec: the same registration sequence, but with every
registration (full label included) done first-registration-wins, i.e. via
`setdefault`.  The spec asserts the built index behaves this way. -/
def specFirstWinsEntry (m : Dict String Nat) (e : Nat × String) : Dict String Nat :=
  let m1 := dictSetdefault m (_normalise_label e.2) e.1
  let m2 := dictSetdefault m1 (_normalise_label (firstWord e.2)) e.1
  if e.2.data.any (· == '(') then
    dictSetdefault m2 (_normalise_label (beforeParen e.2)) e.1
  else m2

/-- Modelled from the spec: alias index with first-registration-wins
semantics for every registration. -/
def specFirstWinsAliases : Dict String Nat := FRAME_MENU.foldl specFirstWinsEntry []

/-! ### Data model (`TransformationPoint`, `TransformationRequest`, results) -/

/-- A single geodetic point to be transformed by HTDP (longitude positive
east). -/
structure TransformationPoint where
  name : String
  latitude : ℚ
  longitude : ℚ
  ellipsoid_height : ℚ
  deriving DecidableEq

/-- Output from HTDP for a transformed point (longitude positive east). -/
structure TransformationResult where
  name : String
  latitude : ℚ
  longitude : ℚ
  ellipsoid_height : ℚ
  deriving DecidableEq

/-- Container for the raw execution artefacts returned by HTDP. -/
structure HTDPExecution where
  stdout : String
  stderr : String
  results : List TransformationResult
  deriving DecidableEq

/-- The error taxonomy of the driver, one constructor per Python exception
identity the caller can observe: `ValueError` from frame resolution,
`FileNotFoundError` / `PermissionError` from the binary check,
`subprocess.TimeoutExpired`, `RuntimeError` on a non-zero exit, and the
`FileNotFoundError` raised for a missing output file. -/
inductive HtdpError where
  | unknownFrame
  | engineUnavailableMissing
  | engineUnavailableNotExecutable
  | engineTimeout
  | engineExecutionFailed (stdout stderr : String)
  | missingOutputFile
  deriving DecidableEq

/-- A frame identifier as received by `resolve_frame`: Python `str | int`. -/
inductive FrameId where
  | num (n : ℤ)
  | txt (s : String)
  deriving DecidableEq

/-! ### Frame resolution (`resolve_frame`) -/

/-- The integer branch of `resolve_frame`: accept `n` iff it is a key of
`FRAME_MENU`. -/
def resolveIndex (n : ℤ) : Option Nat :=
  if FRAME_MENU.any (fun e => (e.1 : ℤ) == n) then some n.toNat else none

/-- Python `text.isdigit()` for ASCII text: non-empty and all digits. -/
def pyIsDigit (s : String) : Bool :=
  !s.data.isEmpty && s.data.all Char.isDigit

/-- Python `str.strip()`. -/
def pyStrip (s : String) : String := String.mk (stripChars s.data)

/-- Resolve a frame label or index to the numeric menu option expected by
HTDP; `none` models the `ValueError` raised on failure. -/
def resolve_frame : FrameId → Option Nat
  | .num n => resolveIndex n
  | .txt s =>
      if (pyStrip s).data.isEmpty then none
      else if pyIsDigit (pyStrip s) then
        resolveIndex (parseNatOfDigits (pyStrip s).data : Nat)
      else dictGet _frame_aliases (_normalise_label (pyStrip s))

/-! ### Script builder (`build_stdin_script`) -/

/-- Ordered stdin command list fed to the interactive HTDP binary (the source
joins it with newlines; each list entry is one line). -/
def build_stdin_script (output_path : String) (input_frame output_frame : Nat)
    (input_epoch output_epoch : ℚ) (input_file : String) : List String :=
  let lines := [
    "4",
    output_path,
    Nat.repr input_frame,
    Nat.repr output_frame,
    "2",
    pyFloatRepr input_epoch,
    "2",
    pyFloatRepr output_epoch,
    "3",
    input_file,
    "0"]
  lines ++ ["0"]

/-! ### Point codec (`write_input_file`, `parse_output_file`) -/

/-- One line of the delimited input file for a point: latitude and west
longitude with 12 decimals, height with 4, then the name. -/
def encode_line (p : TransformationPoint) : String :=
  let lon_west := -p.longitude
  formatFixed p.latitude 12 ++ "," ++ formatFixed lon_west 12 ++ "," ++
    formatFixed p.ellipsoid_height 4 ++ "," ++ p.name

/-- The lines written to the delimited point file understood by HTDP
option 3. -/
def write_input_file (points : List TransformationPoint) : List String :=
  points.map encode_line

/-- A synthetic engine output data line carrying the same numeric fields the
encoder writes for `p` — the three fixed-point fields of `encode_line`
joined by spaces instead of commas, then the name. -/
def syntheticOutputLine (p : TransformationPoint) : String :=
  formatFixed p.latitude 12 ++ " " ++ formatFixed (-p.longitude) 12 ++ " " ++
    formatFixed p.ellipsoid_height 4 ++ " " ++ p.name

/-- Decode one line of the engine output file: `none` when the line is
skipped (blank, banner, too few tokens, or unparseable numeric fields). -/
def lineResultChars (cs : List Char) : Option TransformationResult :=
  if (stripChars cs).isEmpty then none
  else if leadsWith (stripChars cs) "TRANSFORMING".data ||
      leadsWith (stripChars cs) "***".data then none
  else
    match splitWs (stripChars cs) with
    | t0 :: t1 :: t2 :: t3 :: rest =>
        match parseFloatChars t0, parseFloatChars t1, parseFloatChars t2 with
        | some latitude, some longitude_west, some height =>
            some { name := String.mk (joinSpace (t3 :: rest)),
                   latitude := latitude,
                   longitude := -longitude_west,
                   ellipsoid_height := height }
        | _, _, _ => none
    | _ => none

/-- Decode one line of the engine output file (string form). -/
def lineResult (line : String) : Option TransformationResult :=
  lineResultChars line.data

/-- The noise conditions of the decode leniency policy: a line that is
empty, begins (after stripping) with a banner marker, has fewer than four
whitespace-separated tokens, or whose first three tokens do not all parse as
floating point. -/
def isSkippableLine (line : String) : Bool :=
  line.data.isEmpty ||
  leadsWith (stripChars line.data) "TRANSFORMING".data ||
  leadsWith (stripChars line.data) "***".data ||
  decide ((splitWs (stripChars line.data)).length < 4) ||
  !(match splitWs (stripChars line.data) with
    | t0 :: t1 :: t2 :: _ =>
        (parseFloatChars t0).isSome && (parseFloatChars t1).isSome &&
          (parseFloatChars t2).isSome
    | _ => false)

/-- Decode all lines of an existing output file. -/
def parse_output_lines (lines : List String) : List TransformationResult :=
  lines.filterMap lineResult

/-- `parse_output_file`: `none` models a non-existent output path, on which
the source raises `FileNotFoundError`; an existing file is any list of
lines. -/
def parse_output_file (file : Option (List String)) :
    Except HtdpError (List TransformationResult) :=
  match file with
  | none => .error .missingOutputFile
  | some lines => .ok (parse_output_lines lines)

/-! ### Engine invoker (`ensure_binary_exists`, `run_transformation`) -/

/-- Outcome of the single `subprocess.run` call: either the time budget was
exceeded — `subprocess.run` then kills the child and raises
`subprocess.TimeoutExpired` — or the child terminated with an exit code and
captured stdout/stderr. -/
inductive EngineOutcome where
  | timeout
  | completed (returncode : ℤ) (stdout stderr : String)
  deriving DecidableEq

/-- Observable state of the host environment during one invocation: the
binary check results, the child-process outcome, and the content of the
expected output file after the child exits (`none` when the file was not
created). -/
structure EngineEnv where
  binaryExists : Bool
  binaryExecutable : Bool
  outcome : EngineOutcome
  outputFile : Option (List String)

/-- `ensure_binary_exists`: `FileNotFoundError` when the binary is absent,
`PermissionError` when it is not executable. -/
def ensure_binary_exists (env : EngineEnv) : Except HtdpError Unit :=
  if !env.binaryExists then .error .engineUnavailableMissing
  else if !env.binaryExecutable then .error .engineUnavailableNotExecutable
  else .ok ()

/-- `run_transformation`: binary check, then one bounded engine run, then
non-zero-exit check, then output decoding.  Each failure propagates to the
caller as its own error kind. -/
def run_transformation (env : EngineEnv) : Except HtdpError HTDPExecution :=
  match ensure_binary_exists env with
  | .error e => .error e
  | .ok _ =>
      match env.outcome with
      | .timeout => .error .engineTimeout
      | .completed returncode stdout stderr =>
          if returncode ≠ 0 then .error (.engineExecutionFailed stdout stderr)
          else
            match parse_output_file env.outputFile with
            | .error e => .error e
            | .ok results =>
                .ok { stdout := stdout, stderr := stderr, results := results }

/-! ## Theorems -/

/-- C1 counterexample: at the §8 end-to-end inputs (input frame 1, output
frame 25, epochs 2005.0 and 2020.0) the script builder produces a command
list of 12 lines, not the 11 lines the claim asserts: the seven fixed menu
responses and the output path, the two epoch values, the input path, and the
final exit line appended after the return-to-menu line make 12. -/
theorem script_eleven_line_template_refuted :
    (build_stdin_script "results.txt" 1 25 2005 2020 "points.txt").length ≠ 11 := by
  decide

/-- C1 (amended): for the end-to-end scenario (frames 1 → 25, epochs 2005.0 →
2020.0, single point Denver at lat 39, lon −104, height 1600) the script
builder produces exactly the 12-line command sequence — menu action, output
path, input frame, output frame, decimal-year choice and input epoch,
decimal-year choice and output epoch, file-mode choice and input path,
return to menu, exit — with the exact substituted values, and the point
encoder writes exactly the one line
`39.000000000000,104.000000000000,1600.0000,Denver`. -/
theorem denver_script_and_input_file :
    build_stdin_script "results.txt" 1 25 2005 2020 "points.txt" =
      ["4", "results.txt", "1", "25", "2", "2005.0", "2", "2020.0", "3",
       "points.txt", "0", "0"] ∧
    write_input_file
        [{ name := "Denver", latitude := 39, longitude := -104,
           ellipsoid_height := 1600 }] =
      ["39.000000000000,104.000000000000,1600.0000,Denver"] := by
  constructor
  · decide
  · decide

/-- C2: alias-index construction is first-registration-wins — the alias
index the module builds (full labels registered by plain dict assignment,
short forms by `setdefault`) is identical, entry for entry, to the index
built by registering every key of every catalog entry in catalog order with
first-registration-wins semantics.  Hence for every normalized alias key the
recorded frame index is the one from the first catalog entry that registers
that key, no later registration overwrites an existing mapping, and alias
resolution (a pure lookup in this index) yields the same index on every
run. -/
theorem alias_first_registration_wins : _frame_aliases = specFirstWinsAliases := by
  decide

/-- C7: frame resolution is case- and punctuation-insensitive —
`resolve("itrf2014")`, `resolve("ITRF2014")` and `resolve("itrf-2014")` all
succeed and yield the same index as `resolve(25)`. -/
theorem frame_resolution_case_punct_insensitive :
    resolve_frame (.txt "itrf2014") = some 25 ∧
    resolve_frame (.txt "ITRF2014") = some 25 ∧
    resolve_frame (.txt "itrf-2014") = some 25 ∧
    resolve_frame (.num 25) = some 25 := by
  decide

/-- C8: decoding an output file whose only content is the data line
`40.123456789012 -105.123456789012 1613.2500 StationA` yields exactly one
result named `StationA` with latitude 40.123456789012, longitude
105.123456789012 (sign-flipped back to positive east) and ellipsoid height
1613.25. -/
theorem single_data_line_decode :
    parse_output_file (some ["40.123456789012 -105.123456789012 1613.2500 StationA"]) =
      .ok [{ name := "StationA",
             latitude := (40123456789012 : ℚ) / 1000000000000,
             longitude := (105123456789012 : ℚ) / 1000000000000,
             ellipsoid_height := (16132500 : ℚ) / 10000 }] :=
  congrArg Except.ok (by decide)

/-- C4: when the engine run exceeds the time budget (the child process is
killed and `subprocess.TimeoutExpired` raised), the invocation fails with the
`engineTimeout` error kind; conversely `engineTimeout` arises from no other
outcome, so it is distinct from every other error kind of the taxonomy. -/
theorem timeout_yields_engine_timeout (env : EngineEnv)
    (hex : env.binaryExists = true) (hxc : env.binaryExecutable = true)
    (ht : env.outcome = .timeout) :
    run_transformation env = .error .engineTimeout ∧
    ∀ env2 : EngineEnv, run_transformation env2 = .error .engineTimeout →
      env2.outcome = .timeout := by
  constructor
  · unfold run_transformation ensure_binary_exists
    rw [hex, hxc, ht]
    rfl
  · intro env2 h
    unfold run_transformation ensure_binary_exists at h
    by_cases h1 : env2.binaryExists
    · by_cases h2 : env2.binaryExecutable
      · rw [h1, h2] at h
        simp only [Bool.not_true, Bool.false_eq_true, if_false] at h
        match ho : env2.outcome with
        | .timeout => rfl
        | .completed rc out err =>
            rw [ho] at h
            by_cases h3 : rc = 0
            · simp only [h3, ne_eq, not_true_eq_false, if_neg, ite_false] at h
              cases hp : parse_output_file env2.outputFile with
              | error e =>
                  rw [hp] at h
                  cases hp2 : env2.outputFile with
                  | none => rw [hp2] at hp; cases hp; cases h
                  | some lines => rw [hp2] at hp; cases hp
              | ok results => rw [hp] at h; cases h
            · simp only [ne_eq, h3, not_false_eq_true, if_true, if_pos] at h
              cases h
      · rw [h1] at h
        simp only [Bool.not_true, Bool.false_eq_true, if_false,
          Bool.not_eq_true'] at h
        rw [Bool.not_eq_true] at h2
        rw [h2] at h
        simp at h
    · rw [Bool.not_eq_true] at h1
      rw [h1] at h
      simp at h

/-- C4 witness: a concrete environment with the binary present and
executable whose engine run times out fails with `engineTimeout`. -/
theorem timeout_yields_engine_timeout_witness :
    run_transformation ⟨true, true, .timeout, none⟩ = .error .engineTimeout :=
  (timeout_yields_engine_timeout ⟨true, true, .timeout, none⟩ rfl rfl rfl).1

/-- C6: decoding fails with `missingOutputFile` exactly when the output file
does not exist after the engine exits; an existing file all of whose lines
decode to nothing is not an error and yields the valid empty result list. -/
theorem missing_output_file_iff_absent :
    (∀ file : Option (List String),
        parse_output_file file = .error .missingOutputFile ↔ file = none) ∧
    ∀ lines : List String, (∀ l ∈ lines, lineResult l = none) →
      parse_output_file (some lines) = .ok [] := by
  constructor
  · intro file
    cases file with
    | none => exact ⟨fun _ => rfl, fun _ => rfl⟩
    | some lines => exact Iff.intro (fun h => by cases h) (fun h => by cases h)
  · intro lines h
    show Except.ok (parse_output_lines lines) = Except.ok []
    rw [show parse_output_lines lines = [] from List.filterMap_eq_nil_iff.mpr h]

/-- C6 witness: the missing file decodes to the `missingOutputFile` error,
and a concrete banner-only file decodes to the empty result list. -/
theorem missing_output_file_iff_absent_witness :
    parse_output_file none = .error .missingOutputFile ∧
    parse_output_file (some ["*** HTDP banner ***"]) = .ok [] :=
  ⟨(missing_output_file_iff_absent.1 none).mpr rfl,
   missing_output_file_iff_absent.2 ["*** HTDP banner ***"] (by decide)⟩

/-- C9: the output decoder is total on existing files — every existing file,
whatever its lines hold, decodes to some (possibly empty) result list, and
the only failure the decode operation can produce is the missing-file
case. -/
theorem decoder_total_on_existing_files :
    (∀ content : List String, ∃ rs, parse_output_file (some content) = .ok rs) ∧
    ∀ file e, parse_output_file file = .error e →
      file = none ∧ e = HtdpError.missingOutputFile := by
  constructor
  · intro content
    exact ⟨parse_output_lines content, rfl⟩
  · intro file e h
    cases file with
    | none => cases h; exact ⟨rfl, rfl⟩
    | some lines => cases h

/-- C9 witness: a concrete file of narrative noise decodes successfully. -/
theorem decoder_total_on_existing_files_witness :
    ∃ rs, parse_output_file (some ["no data here", "just narrative text"]) = .ok rs :=
  decoder_total_on_existing_files.1 ["no data here", "just narrative text"]

/-- C5: the output decoder is lenient — every line that is empty, begins
with a banner marker after stripping, has fewer than four
whitespace-separated tokens, or whose first three tokens do not all parse as
floating point, is silently skipped (decodes to nothing), and a file
containing only banner lines decodes to an empty result list with no
error. -/
theorem decoder_skips_noise_lines :
    (∀ line : String, isSkippableLine line = true → lineResult line = none) ∧
    parse_output_file
        (some ["*** HTDP output ***", "TRANSFORMING POSITIONS", "*** end ***"]) =
      .ok [] := by
  constructor
  · intro line h
    unfold lineResult lineResultChars
    split
    · rfl
    next h1 =>
      split
      · rfl
      next h2 =>
        rcases hsplit : splitWs (stripChars line.data) with
          _ | ⟨t0, _ | ⟨t1, _ | ⟨t2, _ | ⟨t3, rest⟩⟩⟩⟩
        · rfl
        · rfl
        · rfl
        · rfl
        · dsimp only
          rcases hp0 : parseFloatChars t0 with _ | lat
          · rfl
          rcases hp1 : parseFloatChars t1 with _ | lonW
          · rfl
          rcases hp2 : parseFloatChars t2 with _ | hgt
          · rfl
          exfalso
          unfold isSkippableLine at h
          simp only [Bool.or_eq_true, decide_eq_true_eq, Bool.not_eq_true'] at h
          simp only [Bool.or_eq_true, not_or] at h2
          rcases h with ((((hE | hT) | hS) | hLen) | hP)
          · rw [List.isEmpty_iff.mp hE] at h1
            exact h1 rfl
          · exact h2.1 hT
          · exact h2.2 hS
          · rw [hsplit] at hLen
            simp only [List.length_cons] at hLen
            omega
          · rw [hsplit] at hP
            dsimp only at hP
            rw [hp0, hp1, hp2] at hP
            simp at hP
  · exact congrArg Except.ok (by decide)

/-- C5 witness: a concrete banner line is skippable and decodes to
nothing. -/
theorem decoder_skips_noise_lines_witness :
    lineResult "***  GPS WEEK  ***" = none :=
  decoder_skips_noise_lines.1 "***  GPS WEEK  ***" (by decide)

/-- A successful `dictGet` returns a pair of the association list. -/
theorem dictGet_mem {α β : Type} [DecidableEq α] :
    ∀ (m : Dict α β) (k : α) (v : β), dictGet m k = some v → (k, v) ∈ m := by
  intro m
  induction m with
  | nil => intro k v h; cases h
  | cons e rest ih =>
      intro k v h
      obtain ⟨k', v'⟩ := e
      unfold dictGet at h
      by_cases hk : k = k'
      · rw [if_pos hk] at h
        cases h
        rw [hk]
        exact List.mem_cons_self _ _
      · rw [if_neg hk] at h
        exact List.mem_cons_of_mem _ (ih k v h)

/-- Every index of the fixed catalog lies in 1..26. -/
theorem frame_menu_indices_bounded : ∀ e ∈ FRAME_MENU, 1 ≤ e.1 ∧ e.1 ≤ 26 := by
  decide

/-- Every index the alias table can return lies in 1..26. -/
theorem alias_values_bounded : ∀ kv ∈ _frame_aliases, 1 ≤ kv.2 ∧ kv.2 ≤ 26 := by
  decide

/-- A successful integer resolution returns a catalog index equal to its
argument. -/
theorem resolveIndex_mem (n : ℤ) (i : Nat) (h : resolveIndex n = some i) :
    1 ≤ i ∧ i ≤ 26 ∧ (i : ℤ) = n := by
  unfold resolveIndex at h
  split at h
  case isTrue hc =>
    obtain ⟨e, he, heq⟩ := List.any_eq_true.mp hc
    have hn : (e.1 : ℤ) = n := by exact_mod_cast of_decide_eq_true heq
    cases h
    have hb := frame_menu_indices_bounded e he
    have hnn : (0 : ℤ) ≤ n := by omega
    have : n.toNat = e.1 := by omega
    rw [this]
    exact ⟨hb.1, hb.2, hn⟩
  case isFalse => cases h

/-- Resolving any catalog index, or its decimal digit string, succeeds and
returns it unchanged. -/
theorem resolve_small_roundtrip : ∀ i : Nat, i < 27 → 1 ≤ i →
    resolveIndex (i : ℤ) = some i ∧ resolve_frame (.txt (Nat.repr i)) = some i := by
  decide

/-- C10: every successful frame resolution returns an index of the fixed
26-entry catalog (an integer in 1..26), and resolution is idempotent on its
own outputs — resolving the returned index, or its decimal digit string,
succeeds and returns the same index. -/
theorem resolve_returns_catalog_index_idempotent (fid : FrameId) (i : Nat)
    (h : resolve_frame fid = some i) :
    (1 ≤ i ∧ i ≤ 26) ∧ resolve_frame (.num (i : ℤ)) = some i ∧
      resolve_frame (.txt (Nat.repr i)) = some i := by
  have hb : 1 ≤ i ∧ i ≤ 26 := by
    cases fid with
    | num n =>
        have h' : resolveIndex n = some i := h
        obtain ⟨h1, h2, _⟩ := resolveIndex_mem n i h'
        exact ⟨h1, h2⟩
    | txt s =>
        have h' : (if (pyStrip s).data.isEmpty then none
            else if pyIsDigit (pyStrip s) then
              resolveIndex (parseNatOfDigits (pyStrip s).data : Nat)
            else dictGet _frame_aliases (_normalise_label (pyStrip s))) = some i := h
        split at h'
        · cases h'
        · split at h'
          · obtain ⟨h1, h2, _⟩ := resolveIndex_mem _ i h'
            exact ⟨h1, h2⟩
          · exact alias_values_bounded _ (dictGet_mem _ _ _ h')
  obtain ⟨hr1, hr2⟩ := resolve_small_roundtrip i (by omega) hb.1
  exact ⟨hb, hr1, hr2⟩

/-- The fuel-bounded digit extractor agrees with `Nat.digits 10` whenever
the fuel covers the value. -/
theorem digitsRevAux_eq_digits :
    ∀ fuel m : Nat, m ≤ fuel → digitsRevAux fuel m = Nat.digits 10 m := by
  intro fuel
  induction fuel with
  | zero =>
      intro m hm
      interval_cases m
      exact (Nat.digits_zero 10).symm
  | succ f ih =>
      intro m hm
      unfold digitsRevAux
      by_cases h0 : m = 0
      · rw [if_pos h0, h0]
        exact (Nat.digits_zero 10).symm
      · rw [if_neg h0, Nat.digits_def' (by norm_num) (Nat.pos_of_ne_zero h0),
          ih (m / 10) (by omega)]

/-- `digitsRev` computes `Nat.digits 10`. -/
theorem digitsRev_eq_digits (m : Nat) : digitsRev m = Nat.digits 10 m :=
  digitsRevAux_eq_digits m m le_rfl

/-- Facts about single digit characters, checked by evaluation. -/
theorem digitChar_facts : ∀ d : Nat, d < 10 →
    (Nat.digitChar d).isDigit = true ∧ digitVal (Nat.digitChar d) = d ∧
    (Nat.digitChar d).isWhitespace = false := by
  decide

/-- Every character of `natDigitsChars m` is an ASCII digit. -/
theorem natDigitsChars_isDigit (m : Nat) :
    ∀ c ∈ natDigitsChars m, c.isDigit = true := by
  intro c hc
  unfold natDigitsChars at hc
  by_cases h0 : m = 0
  · rw [if_pos h0, List.mem_singleton] at hc
    rw [hc]
    rfl
  · rw [if_neg h0, digitsRev_eq_digits, List.mem_reverse, List.mem_map] at hc
    obtain ⟨d, hd, rfl⟩ := hc
    exact (digitChar_facts d (Nat.digits_lt_base (by norm_num) hd)).1

/-- `natDigitsChars` is never empty. -/
theorem natDigitsChars_ne_nil (m : Nat) : natDigitsChars m ≠ [] := by
  unfold natDigitsChars
  split
  · exact List.cons_ne_nil _ _
  next h0 =>
    rw [digitsRev_eq_digits]
    intro hcon
    rw [List.reverse_eq_nil_iff, List.map_eq_nil_iff,
      Nat.digits_eq_nil_iff_eq_zero] at hcon
    exact h0 hcon

/-- Every character of `fracChars frac d` is an ASCII digit. -/
theorem fracChars_isDigit (frac d : Nat) :
    ∀ c ∈ fracChars frac d, c.isDigit = true := by
  intro c hc
  unfold fracChars at hc
  rw [List.mem_reverse, List.mem_map] at hc
  obtain ⟨x, hx, rfl⟩ := hc
  rw [List.mem_append] at hx
  rcases hx with hx | hx
  · rw [digitsRev_eq_digits] at hx
    exact (digitChar_facts x (Nat.digits_lt_base (by norm_num) hx)).1
  · rw [List.eq_of_mem_replicate hx]
    rfl

/-- Parsing back a digit-character list via `digitVal` undoes `digitChar`
rendering. -/
theorem parseNat_render (L : List Nat) (hL : ∀ x ∈ L, x < 10) :
    parseNatOfDigits ((L.map Nat.digitChar).reverse) = Nat.ofDigits 10 L := by
  unfold parseNatOfDigits
  rw [List.map_reverse, List.reverse_reverse, List.map_map]
  congr 1
  rw [show digitVal ∘ Nat.digitChar = fun x => digitVal (Nat.digitChar x) from rfl]
  calc L.map (fun x => digitVal (Nat.digitChar x)) = L.map id := by
        apply List.map_congr_left
        intro a ha
        exact (digitChar_facts a (hL a ha)).2.1
    _ = L := List.map_id L

/-- Parsing the rendered integer part returns the integer. -/
theorem parseNatOfDigits_natDigitsChars (m : Nat) :
    parseNatOfDigits (natDigitsChars m) = m := by
  unfold natDigitsChars
  split
  next h0 => rw [h0]; decide
  next h0 =>
    rw [digitsRev_eq_digits,
      parseNat_render _ (fun x hx => Nat.digits_lt_base (by norm_num) hx),
      Nat.ofDigits_digits]

/-- `Nat.ofDigits` of a run of zeros is zero. -/
theorem ofDigits_replicate_zero (b k : Nat) :
    Nat.ofDigits b (List.replicate k 0) = 0 := by
  induction k with
  | zero => rfl
  | succ n ih =>
      rw [List.replicate_succ, Nat.ofDigits_cons, ih]
      simp

/-- The digit list of `frac < 10 ^ d` has at most `d` digits. -/
theorem digits_length_le (frac d : Nat) (h : frac < 10 ^ d) :
    (Nat.digits 10 frac).length ≤ d := by
  by_cases h0 : frac = 0
  · rw [h0]
    simp
  · have h1 := Nat.base_pow_length_digits_le 10 frac (by norm_num) h0
    have h2 : 10 ^ (Nat.digits 10 frac).length < 10 ^ (d + 1) := by
      calc 10 ^ (Nat.digits 10 frac).length ≤ 10 * frac := h1
        _ < 10 * 10 ^ d := by omega
        _ = 10 ^ (d + 1) := by ring
    have := (Nat.pow_lt_pow_iff_right (by norm_num : 1 < 10)).mp h2
    omega

/-- The rendered fraction field has exactly `d` characters. -/
theorem fracChars_length (frac d : Nat) (h : frac < 10 ^ d) :
    (fracChars frac d).length = d := by
  unfold fracChars
  rw [digitsRev_eq_digits, List.length_reverse, List.length_map,
    List.length_append, List.length_replicate]
  have := digits_length_le frac d h
  omega

/-- Parsing the rendered zero-padded fraction field returns the
numerator. -/
theorem parseNatOfDigits_fracChars (frac d : Nat) (_h : frac < 10 ^ d) :
    parseNatOfDigits (fracChars frac d) = frac := by
  unfold fracChars
  rw [digitsRev_eq_digits]
  rw [parseNat_render]
  · rw [Nat.ofDigits_append, ofDigits_replicate_zero, Nat.ofDigits_digits]
    ring
  · intro x hx
    rw [List.mem_append] at hx
    rcases hx with hx | hx
    · exact Nat.digits_lt_base (by norm_num) hx
    · rw [List.eq_of_mem_replicate hx]
      norm_num

/-- `splitDigits` consumes exactly a leading all-digit run when what follows
is empty or starts with a non-digit. -/
theorem splitDigits_append (xs ys : List Char)
    (hxs : ∀ c ∈ xs, c.isDigit = true)
    (hys : ∀ c, ys.head? = some c → c.isDigit = false) :
    splitDigits (xs ++ ys) = (xs, ys) := by
  induction xs with
  | nil =>
      cases ys with
      | nil => rfl
      | cons c t =>
          rw [List.nil_append]
          unfold splitDigits
          dsimp only
          rw [if_neg]
          rw [hys c rfl]
          exact Bool.false_ne_true
  | cons x xs ih =>
      rw [List.cons_append]
      unfold splitDigits
      dsimp only
      rw [if_pos (hxs x (List.mem_cons_self x xs)),
        ih (fun c hc => hxs c (List.mem_cons_of_mem x hc))]

/-- Rounding an integer value returns that integer. -/
theorem roundHalfEven_intCast (n : ℤ) : roundHalfEven ((n : ℤ) : ℚ) = n := by
  unfold roundHalfEven
  have hf : ((n : ℚ)).floor = n := by
    rw [Rat.floor_def', ← Rat.floor_def, Int.floor_intCast]
  rw [hf]
  rw [if_pos]
  rw [sub_self]
  norm_num

/-- A token starting with a digit is parsed by the unsigned branch. -/
theorem parseFloatChars_digit_head (cs : List Char) (c : Char)
    (hh : cs.head? = some c) (hd : c.isDigit = true) :
    parseFloatChars cs = parseUFloatChars cs := by
  cases cs with
  | nil => cases hh
  | cons c0 t =>
      have hc0 : c0 = c := by
        rw [List.head?_cons] at hh
        exact Option.some.inj hh
      subst hc0
      unfold parseFloatChars
      split
      next heq =>
        rw [List.cons.injEq] at heq
        rw [heq.1] at hd
        cases hd
      next heq =>
        rw [List.cons.injEq] at heq
        rw [heq.1] at hd
        cases hd
      next => rfl

/-- Parsing an unsigned rendered fixed-point body recovers the scaled
value. -/
theorem parseUFloatChars_body (m : Nat) (d : Nat) :
    parseUFloatChars
        (natDigitsChars (m / 10 ^ d) ++ '.' :: fracChars (m % 10 ^ d) d) =
      some ((m : ℚ) / 10 ^ d) := by
  have hfrac_lt : m % 10 ^ d < 10 ^ d :=
    Nat.mod_lt m (Nat.pos_pow_of_pos d (by norm_num))
  have hsd : splitDigits
      (natDigitsChars (m / 10 ^ d) ++ '.' :: fracChars (m % 10 ^ d) d) =
      (natDigitsChars (m / 10 ^ d), '.' :: fracChars (m % 10 ^ d) d) :=
    splitDigits_append _ _ (natDigitsChars_isDigit _)
      (fun c hc => by rw [List.head?_cons] at hc; rw [← Option.some.inj hc]; rfl)
  have hfrac : splitDigits (fracChars (m % 10 ^ d) d) =
      (fracChars (m % 10 ^ d) d, []) := by
    have := splitDigits_append (fracChars (m % 10 ^ d) d) []
      (fracChars_isDigit _ _) (fun c hc => by cases hc)
    rwa [List.append_nil] at this
  have hne : (natDigitsChars (m / 10 ^ d)).isEmpty = false := by
    rw [← Bool.not_eq_true]
    intro hcon
    exact natDigitsChars_ne_nil _ (List.isEmpty_iff.mp hcon)
  unfold parseUFloatChars
  rw [hsd]
  dsimp only
  rw [if_pos (show ('.' : Char) = '.' from rfl), hfrac]
  dsimp only
  rw [hne]
  rw [if_pos (by rfl)]
  rw [parseNatOfDigits_natDigitsChars, parseNatOfDigits_fracChars _ _ hfrac_lt,
    fracChars_length _ _ hfrac_lt]
  congr 1
  have hsplit : (10 : ℚ) ^ d * ((m / 10 ^ d : Nat) : ℚ) + ((m % 10 ^ d : Nat) : ℚ) =
      (m : ℚ) := by
    rw [show ((10 : ℚ) ^ d) = ((10 ^ d : Nat) : ℚ) by push_cast; ring]
    rw [← Nat.cast_mul, ← Nat.cast_add]
    rw [Nat.div_add_mod]
  have hpow : (10 : ℚ) ^ d ≠ 0 := by positivity
  field_simp
  linarith [hsplit]

/-- Parsing the fixed-point rendering of an exactly representable value
recovers the value: `float(f"{q:.df}") == q` whenever `q · 10^d` is an
integer. -/
theorem parseFloatChars_formatFixedChars (q : ℚ) (d : Nat) (n : ℤ)
    (hq : q * 10 ^ d = (n : ℚ)) :
    parseFloatChars (formatFixedChars q d) = some q := by
  have hre : roundHalfEven (q * 10 ^ d) = n := by
    rw [hq]
    exact roundHalfEven_intCast n
  have hqval : q = (n : ℚ) / 10 ^ d := by
    rw [← hq]
    field_simp
  unfold formatFixedChars
  rw [hre]
  by_cases hn : n < 0
  · rw [if_pos hn]
    have hcast : ((n.natAbs : Nat) : ℚ) = -(n : ℚ) := by
      rw [Int.cast_natAbs]
      simp [abs_of_neg (show (n : ℚ) < 0 by exact_mod_cast hn)]
    show (parseUFloatChars _).map _ = _
    rw [parseUFloatChars_body n.natAbs d]
    rw [Option.map_some']
    congr 1
    rw [hqval, hcast]
    ring
  · rw [if_neg hn]
    have hcast : ((n.natAbs : Nat) : ℚ) = (n : ℚ) := by
      rw [Int.cast_natAbs]
      simp [abs_of_nonneg (show (0 : ℚ) ≤ (n : ℚ) by exact_mod_cast not_lt.mp hn)]
    obtain ⟨c, cs', hcons⟩ :=
      List.exists_cons_of_ne_nil (natDigitsChars_ne_nil (n.natAbs / 10 ^ d))
    have hcdig : c.isDigit = true :=
      natDigitsChars_isDigit _ c (hcons ▸ List.mem_cons_self c cs')
    rw [parseFloatChars_digit_head _ c (by rw [hcons]; rfl) hcdig]
    rw [parseUFloatChars_body n.natAbs d, hqval, hcast]

/-- `dropWhile` is the identity when the head (if any) fails the
predicate. -/
theorem dropWhile_head_false (p : Char → Bool) (l : List Char)
    (h : ∀ c, l.head? = some c → p c = false) : l.dropWhile p = l := by
  cases l with
  | nil => rfl
  | cons c t =>
      rw [List.dropWhile_cons, h c rfl]
      simp

/-- Stripping is the identity on a list with no leading or trailing
whitespace. -/
theorem stripChars_eq_self (cs : List Char)
    (h1 : ∀ c, cs.head? = some c → c.isWhitespace = false)
    (h2 : ∀ c, cs.getLast? = some c → c.isWhitespace = false) :
    stripChars cs = cs := by
  unfold stripChars
  rw [dropWhile_head_false _ _ h1]
  rw [dropWhile_head_false _ _ (fun c hc => h2 c (by rwa [List.head?_reverse] at hc))]
  exact List.reverse_reverse cs

/-- `splitWsAux` moves a whitespace-free run into the accumulator. -/
theorem splitWsAux_token (t : List Char) (ht : ∀ c ∈ t, c.isWhitespace = false) :
    ∀ rest acc, splitWsAux (t ++ rest) acc = splitWsAux rest (t.reverse ++ acc) := by
  induction t with
  | nil => intro rest acc; rfl
  | cons c t ih =>
      intro rest acc
      rw [List.cons_append]
      conv_lhs => rw [splitWsAux]
      rw [ht c (List.mem_cons_self c t)]
      simp only [Bool.false_eq_true, if_false]
      rw [ih (fun x hx => ht x (List.mem_cons_of_mem c hx)) rest (c :: acc)]
      rw [List.reverse_cons, List.append_assoc, List.singleton_append]

/-- A non-empty list is not `isEmpty`. -/
theorem isEmpty_false_of_ne_nil {l : List Char} (h : l ≠ []) :
    l.isEmpty = false := by
  rw [← Bool.not_eq_true]
  intro hcon
  exact h (List.isEmpty_iff.mp hcon)

/-- `splitWs` peels one space-terminated token off the front. -/
theorem splitWs_token_space (t rest : List Char)
    (ht : ∀ c ∈ t, c.isWhitespace = false) (hne : t ≠ []) :
    splitWs (t ++ ' ' :: rest) = t :: splitWs rest := by
  unfold splitWs
  rw [splitWsAux_token t ht (' ' :: rest) []]
  conv_lhs => rw [splitWsAux]
  rw [show (' '.isWhitespace) = true from rfl]
  simp only [if_true, List.append_nil]
  rw [isEmpty_false_of_ne_nil (by simpa using hne)]
  simp only [Bool.false_eq_true, if_false]
  rw [List.reverse_reverse]

/-- `splitWs` of a single whitespace-free token is that token alone. -/
theorem splitWs_single (t : List Char) (ht : ∀ c ∈ t, c.isWhitespace = false)
    (hne : t ≠ []) : splitWs t = [t] := by
  unfold splitWs
  have haux := splitWsAux_token t ht [] []
  rw [List.append_nil] at haux
  rw [haux]
  conv_lhs => rw [splitWsAux]
  rw [List.append_nil]
  rw [isEmpty_false_of_ne_nil (by simpa using hne)]
  simp only [Bool.false_eq_true, if_false]
  rw [List.reverse_reverse]

/-- Every character of `natDigitsChars` is non-whitespace. -/
theorem natDigitsChars_not_ws (m : Nat) :
    ∀ c ∈ natDigitsChars m, c.isWhitespace = false := by
  intro c hc
  unfold natDigitsChars at hc
  by_cases h0 : m = 0
  · rw [if_pos h0, List.mem_singleton] at hc
    rw [hc]
    rfl
  · rw [if_neg h0, digitsRev_eq_digits, List.mem_reverse, List.mem_map] at hc
    obtain ⟨d, hd, rfl⟩ := hc
    exact (digitChar_facts d (Nat.digits_lt_base (by norm_num) hd)).2.2

/-- Every character of `fracChars` is non-whitespace. -/
theorem fracChars_not_ws (frac d : Nat) :
    ∀ c ∈ fracChars frac d, c.isWhitespace = false := by
  intro c hc
  unfold fracChars at hc
  rw [List.mem_reverse, List.mem_map] at hc
  obtain ⟨x, hx, rfl⟩ := hc
  rw [List.mem_append] at hx
  rcases hx with hx | hx
  · rw [digitsRev_eq_digits] at hx
    exact (digitChar_facts x (Nat.digits_lt_base (by norm_num) hx)).2.2
  · rw [List.eq_of_mem_replicate hx]
    rfl

/-- Every character of a rendered fixed-point field is non-whitespace. -/
theorem formatFixedChars_not_ws (q : ℚ) (d : Nat) :
    ∀ c ∈ formatFixedChars q d, c.isWhitespace = false := by
  intro c hc
  unfold formatFixedChars at hc
  by_cases hn : roundHalfEven (q * 10 ^ d) < 0
  · rw [if_pos hn, List.mem_cons] at hc
    rcases hc with rfl | hc
    · rfl
    · rw [List.mem_append] at hc
      rcases hc with hc | hc
      · exact natDigitsChars_not_ws _ c hc
      · rw [List.mem_cons] at hc
        rcases hc with rfl | hc
        · rfl
        · exact fracChars_not_ws _ _ c hc
  · rw [if_neg hn] at hc
    rw [List.mem_append] at hc
    rcases hc with hc | hc
    · exact natDigitsChars_not_ws _ c hc
    · rw [List.mem_cons] at hc
      rcases hc with rfl | hc
      · rfl
      · exact fracChars_not_ws _ _ c hc

/-- A digit character differs from any non-digit character. -/
theorem isDigit_beq_false (c t : Char) (hd : c.isDigit = true)
    (ht : t.isDigit = false) : (c == t) = false := by
  rw [Bool.eq_false_iff]
  intro hbeq
  rw [beq_iff_eq.mp hbeq] at hd
  rw [hd] at ht
  cases ht

/-- A rendered fixed-point field is non-empty and starts with a digit or a
minus sign, so it can never begin a banner marker. -/
theorem formatFixedChars_head (q : ℚ) (d : Nat) :
    ∃ c cs', formatFixedChars q d = c :: cs' ∧
      (c == 'T') = false ∧ (c == '*') = false := by
  unfold formatFixedChars
  by_cases hn : roundHalfEven (q * 10 ^ d) < 0
  · rw [if_pos hn]
    exact ⟨'-', _, rfl, rfl, rfl⟩
  · rw [if_neg hn]
    obtain ⟨c, cs', hcons⟩ :=
      List.exists_cons_of_ne_nil
        (natDigitsChars_ne_nil ((roundHalfEven (q * 10 ^ d)).natAbs / 10 ^ d))
    have hdig : c.isDigit = true :=
      natDigitsChars_isDigit _ c (hcons ▸ List.mem_cons_self c cs')
    refine ⟨c, cs' ++ '.' :: fracChars ((roundHalfEven (q * 10 ^ d)).natAbs % 10 ^ d) d,
      ?_, ?_, ?_⟩
    · rw [hcons, List.cons_append]
    · exact isDigit_beq_false c 'T' hdig rfl
    · exact isDigit_beq_false c '*' hdig rfl

/-- `getLast?` looks only at a non-empty right part of an append. -/
theorem getLast?_append_right {α : Type} (l1 l2 : List α) (h : l2 ≠ []) :
    (l1 ++ l2).getLast? = l2.getLast? := by
  rw [List.getLast?_append]
  cases hl : l2.getLast? with
  | none => exact absurd (List.getLast?_eq_none_iff.mp hl) h
  | some c => rfl

/-- The last element of a list is a member. -/
theorem mem_of_getLast?_eq {α : Type} {l : List α} {a : α}
    (h : l.getLast? = some a) : a ∈ l := by
  obtain ⟨hne, rfl⟩ :=
    List.mem_getLast?_eq_getLast (show a ∈ l.getLast? from by rw [h]; rfl)
  exact List.getLast_mem hne

/-- A rendered fixed-point field is never the empty string. -/
theorem formatFixedChars_ne_nil (q : ℚ) (d : Nat) : formatFixedChars q d ≠ [] := by
  obtain ⟨c, cs', hcons, -, -⟩ := formatFixedChars_head q d
  rw [hcons]
  exact List.cons_ne_nil _ _

/-- C3: the longitude sign flip is applied exactly once in each direction —
for every point whose coordinates are exactly representable at the encoded
precision (latitude and longitude at 12 decimals, height at 4) and whose
name is non-empty and whitespace-free, the encoder writes the line whose
west-longitude field renders `-longitude`, and decoding a synthetic output
data line carrying those same rendered numeric fields yields exactly the
original positive-east longitude (not its negation) and the original
height. -/
theorem longitude_sign_flip_round_trip (p : TransformationPoint) (la lo he : ℤ)
    (hla : p.latitude * 10 ^ 12 = (la : ℚ))
    (hlo : p.longitude * 10 ^ 12 = (lo : ℚ))
    (hhe : p.ellipsoid_height * 10 ^ 4 = (he : ℚ))
    (hname_ne : p.name.data ≠ [])
    (hname_ws : ∀ c ∈ p.name.data, c.isWhitespace = false) :
    write_input_file [p] =
      [formatFixed p.latitude 12 ++ "," ++ formatFixed (-p.longitude) 12 ++ "," ++
        formatFixed p.ellipsoid_height 4 ++ "," ++ p.name] ∧
    lineResult (syntheticOutputLine p) =
      some { name := p.name, latitude := p.latitude, longitude := p.longitude,
             ellipsoid_height := p.ellipsoid_height } := by
  refine ⟨rfl, ?_⟩
  have hdata : (syntheticOutputLine p).data =
      formatFixedChars p.latitude 12 ++ ' ' ::
        (formatFixedChars (-p.longitude) 12 ++ ' ' ::
          (formatFixedChars p.ellipsoid_height 4 ++ ' ' :: p.name.data)) := by
    show (formatFixed p.latitude 12 ++ " " ++ formatFixed (-p.longitude) 12 ++ " " ++
      formatFixed p.ellipsoid_height 4 ++ " " ++ p.name).data = _
    simp only [String.data_append, formatFixed, List.append_assoc]
    rfl
  obtain ⟨cA, csA, hconsA, hAT, hAS⟩ := formatFixedChars_head p.latitude 12
  have hAall := formatFixedChars_not_ws p.latitude 12
  have hBall := formatFixedChars_not_ws (-p.longitude) 12
  have hCall := formatFixedChars_not_ws p.ellipsoid_height 4
  have hAne : formatFixedChars p.latitude 12 ≠ [] := formatFixedChars_ne_nil _ _
  have hBne : formatFixedChars (-p.longitude) 12 ≠ [] := formatFixedChars_ne_nil _ _
  have hCne : formatFixedChars p.ellipsoid_height 4 ≠ [] := formatFixedChars_ne_nil _ _
  have hne_data : (syntheticOutputLine p).data ≠ [] := by
    rw [hdata, hconsA, List.cons_append]
    exact List.cons_ne_nil _ _
  have hstrip : stripChars ((syntheticOutputLine p).data) =
      (syntheticOutputLine p).data := by
    apply stripChars_eq_self
    · intro c hc
      rw [hdata, hconsA, List.cons_append, List.head?_cons] at hc
      rw [← Option.some.inj hc]
      exact hAall cA (hconsA ▸ List.mem_cons_self cA csA)
    · intro c hc
      rw [hdata] at hc
      rw [getLast?_append_right _ _ (List.cons_ne_nil _ _)] at hc
      rw [show (' ' :: (formatFixedChars (-p.longitude) 12 ++ ' ' ::
          (formatFixedChars p.ellipsoid_height 4 ++ ' ' :: p.name.data))) =
          [' '] ++ (formatFixedChars (-p.longitude) 12 ++ ' ' ::
          (formatFixedChars p.ellipsoid_height 4 ++ ' ' :: p.name.data))
        from rfl] at hc
      rw [getLast?_append_right _ _ (fun hcon =>
        List.cons_ne_nil ' ' _ (List.append_eq_nil.mp hcon).2)] at hc
      rw [getLast?_append_right _ _ (List.cons_ne_nil _ _)] at hc
      rw [show (' ' :: (formatFixedChars p.ellipsoid_height 4 ++ ' ' :: p.name.data)) =
          [' '] ++ (formatFixedChars p.ellipsoid_height 4 ++ ' ' :: p.name.data)
        from rfl] at hc
      rw [getLast?_append_right _ _ (fun hcon =>
        List.cons_ne_nil ' ' _ (List.append_eq_nil.mp hcon).2)] at hc
      rw [getLast?_append_right _ _ (List.cons_ne_nil _ _)] at hc
      rw [show (' ' :: p.name.data) = [' '] ++ p.name.data from rfl] at hc
      rw [getLast?_append_right _ _ hname_ne] at hc
      exact hname_ws c (mem_of_getLast?_eq hc)
  have hTban : leadsWith ((syntheticOutputLine p).data) "TRANSFORMING".data = false := by
    rw [hdata, hconsA, List.cons_append]
    show leadsWith (cA :: (csA ++ _)) ('T' :: _) = false
    unfold leadsWith
    rw [hAT, Bool.false_and]
  have hSban : leadsWith ((syntheticOutputLine p).data) "***".data = false := by
    rw [hdata, hconsA, List.cons_append]
    show leadsWith (cA :: (csA ++ _)) ('*' :: _) = false
    unfold leadsWith
    rw [hAS, Bool.false_and]
  have hsplitline : splitWs ((syntheticOutputLine p).data) =
      [formatFixedChars p.latitude 12, formatFixedChars (-p.longitude) 12,
       formatFixedChars p.ellipsoid_height 4, p.name.data] := by
    rw [hdata]
    rw [splitWs_token_space _ _ hAall hAne]
    rw [splitWs_token_space _ _ hBall hBne]
    rw [splitWs_token_space _ _ hCall hCne]
    rw [splitWs_single _ hname_ws hname_ne]
  have hlo' : (-p.longitude) * 10 ^ 12 = ((-lo : ℤ) : ℚ) := by
    push_cast
    linarith [hlo]
  unfold lineResult lineResultChars
  rw [hstrip, isEmpty_false_of_ne_nil hne_data]
  simp only [Bool.false_eq_true, if_false]
  rw [hTban, hSban]
  simp only [Bool.or_self, Bool.false_eq_true, if_false]
  rw [hsplitline]
  dsimp only
  rw [parseFloatChars_formatFixedChars p.latitude 12 la hla,
    parseFloatChars_formatFixedChars (-p.longitude) 12 (-lo) hlo',
    parseFloatChars_formatFixedChars p.ellipsoid_height 4 he hhe]
  dsimp only
  rw [neg_neg]
  rfl

/-- C3 witness: a concrete exactly representable point (lat 40.5,
lon 7.25, height 12.5, name StationB) encodes with west longitude −7.25 and
decodes from the synthetic output line back to longitude +7.25 and height
12.5. -/
theorem longitude_sign_flip_round_trip_witness :
    write_input_file
        [{ name := "StationB", latitude := 81 / 2, longitude := 29 / 4,
           ellipsoid_height := 25 / 2 }] =
      [formatFixed ((81 : ℚ) / 2) 12 ++ "," ++ formatFixed (-((29 : ℚ) / 4)) 12 ++ "," ++
        formatFixed ((25 : ℚ) / 2) 4 ++ "," ++ "StationB"] ∧
    lineResult (syntheticOutputLine
        { name := "StationB", latitude := 81 / 2, longitude := 29 / 4,
          ellipsoid_height := 25 / 2 }) =
      some { name := "StationB", latitude := 81 / 2, longitude := 29 / 4,
             ellipsoid_height := 25 / 2 } :=
  longitude_sign_flip_round_trip
    { name := "StationB", latitude := 81 / 2, longitude := 29 / 4,
      ellipsoid_height := 25 / 2 }
    40500000000000 7250000000000 125000
    (by decide) (by decide) (by decide) (by decide) (by decide)

/-- C10 witness: resolving the textual alias of frame 25 returns a catalog
index on which resolution is idempotent. -/
theorem resolve_returns_catalog_index_idempotent_witness :
    (1 ≤ 25 ∧ 25 ≤ 26) ∧ resolve_frame (.num (25 : ℤ)) = some 25 ∧
      resolve_frame (.txt (Nat.repr 25)) = some 25 :=
  resolve_returns_catalog_index_idempotent (.txt "ITRF2014 or IGS14/IGb14") 25
    (by decide)

end Htdp
